import Mathlib

/-!
Verification development for the WhatsApp chat-log parser
(`WhatAppChatParser.py`).  The Python class is shallowly embedded:

* file content is modelled as a list of physical lines, each a `List Char`
  (the code reads the whole file and calls `splitlines`, so lines never
  contain a line separator);
* the two regular expressions `_regex` (message-boundary detection) and
  `_extract_info` (sender/body extraction) are embedded as values of a
  small regex AST whose runner `RE.run` enumerates the possible suffixes
  left after a prefix match, in exactly the preference order of Python's
  backtracking engine (greedy repetition first, alternatives left to
  right); `re.match` succeeds iff that enumeration is non-empty;
* mutable parser state becomes the record `ChatState`; methods that can
  raise become functions into `Except ChatError _`.  `ValueError` raised
  on an unknown sender is `ChatError.unknownSender`, `ValueError` on a
  bad export path is `ChatError.invalidPath`, and the `IndexError` that
  `subject_list[0]` raises on an empty list is `ChatError.emptyState`;
* file writing in the exporters is out of scope; the exporter is modelled
  up to the data it would serialize.

Character classes: Python's `\d` and `\s` also accept some non-ASCII
characters; the development restricts them to their ASCII parts, which is
faithful on every input appearing in the claims.
-/

namespace WChat

/-- ASCII part of Python's `\d` character class. -/
def isDigitRe (c : Char) : Bool := c.isDigit

/-- ASCII part of Python's `\s` character class (also used for `str.strip`). -/
def isSpaceRe (c : Char) : Bool :=
  c == ' ' || c == '\t' || c == '\n' || c == '\r' || c == '\x0b' || c == '\x0c'

/-- The class `[APap]` of `_regex`. -/
def isAPapRe (c : Char) : Bool := c == 'A' || c == 'P' || c == 'a' || c == 'p'

/-- The class `[Mm]` of `_regex`. -/
def isMmRe (c : Char) : Bool := c == 'M' || c == 'm'

/-- The class `[APM]` of the bracketed timestamp variants. -/
def isAPMRe (c : Char) : Bool := c == 'A' || c == 'P' || c == 'M'

/-- Python `str.strip()`: drop leading and trailing whitespace. -/
def pyStrip (l : List Char) : List Char :=
  ((l.dropWhile isSpaceRe).reverse.dropWhile isSpaceRe).reverse

/-- The preprocessing of `_parse`: `content.replace('‎', '')` followed by
`content.replace(' ', ' ')`, applied per line (neither character is a
line separator, so doing it before or after `splitlines` is the same). -/
def cleanLine (l : List Char) : List Char :=
  (l.filter (fun c => c != '\u200E')).map (fun c => if c = '\u202F' then ' ' else c)

/-- Space-joining of strings, as produced by repeated `acc += ' ' + s`. -/
def spaceJoin : List (List Char) → List Char
  | [] => []
  | [m] => m
  | m :: rest => m ++ ' ' :: spaceJoin rest

/-- Regex AST covering the constructs used by `_regex` and `_extract_info`.
All repetition operators in those patterns apply to single-character
classes, so repetition is restricted to character predicates. -/
inductive RE where
  | eps : RE
  | pred (p : Char → Bool) : RE
  | cat (a b : RE) : RE
  | alt (a b : RE) : RE
  | opt (a : RE) : RE
  | many (p : Char → Bool) : RE
  | many1 (p : Char → Bool) : RE
  | rep (p : Char → Bool) (lo hi : Nat) : RE

/-- Suffixes reachable by `p*` (greedy: longest consumption first). -/
def runMany (p : Char → Bool) : List Char → List (List Char)
  | [] => [[]]
  | c :: rest => if p c then runMany p rest ++ [c :: rest] else [c :: rest]

/-- Suffixes reachable by `p{lo,hi}` (greedy order). -/
def runRepRange (p : Char → Bool) (lo hi : Nat) (s : List Char) : List (List Char) :=
  match hi, s with
  | 0, _ => if lo = 0 then [s] else []
  | _ + 1, [] => if lo = 0 then [[]] else []
  | h + 1, c :: rest =>
      (if p c then runRepRange p (lo - 1) h rest else []) ++ (if lo = 0 then [s] else [])

/-- All suffixes of `s` left after matching a prefix of `s` against `r`,
in the preference order of a backtracking engine: greedy repetitions
consume as much as possible first, alternatives are tried left to right.
`re.match(r, s)` succeeds iff this list is non-empty, and the overall
match Python reports corresponds to the first entry that lets the rest of
the pattern succeed. -/
def RE.run : RE → List Char → List (List Char)
  | .eps, s => [s]
  | .pred _, [] => []
  | .pred p, c :: rest => if p c then [rest] else []
  | .cat a b, s => (RE.run a s).flatMap (RE.run b)
  | .alt a b, s => RE.run a s ++ RE.run b s
  | .opt a, s => RE.run a s ++ [s]
  | .many p, s => runMany p s
  | .many1 _, [] => []
  | .many1 p, c :: rest => if p c then runMany p rest else []
  | .rep p lo hi, s => runRepRange p lo hi s

/-- Single literal character. -/
def chr (c : Char) : RE := .pred (fun x => x == c)

/-- Right-nested sequencing of a list of regexes. -/
def reSeq : List RE → RE
  | [] => .eps
  | r :: rs => .cat r (reSeq rs)

/-- Style A alternative of `_regex`:
`\d+/\d+/\d+, \d{1,2}:\d{2}\s*[APap][Mm]\s*-\s*` (the capture group is
irrelevant to match success and is dropped). -/
def styleA : RE := reSeq
  [.many1 isDigitRe, chr '/', .many1 isDigitRe, chr '/', .many1 isDigitRe,
   chr ',', chr ' ', .rep isDigitRe 1 2, chr ':', .pred isDigitRe, .pred isDigitRe,
   .many isSpaceRe, .pred isAPapRe, .pred isMmRe, .many isSpaceRe, chr '-', .many isSpaceRe]

/-- Style B alternative of `_regex`:
`\[\d+/\d+/\d+, \d{1,2}:\d{2}:\d{2} [APM]{2}\]`. -/
def styleB : RE := reSeq
  [chr '[', .many1 isDigitRe, chr '/', .many1 isDigitRe, chr '/', .many1 isDigitRe,
   chr ',', chr ' ', .rep isDigitRe 1 2, chr ':', .pred isDigitRe, .pred isDigitRe,
   chr ':', .pred isDigitRe, .pred isDigitRe, chr ' ', .rep isAPMRe 2 2, chr ']']

/-- The full `_regex` used by `_parse` to detect message boundaries. -/
def tsRegex : RE := .alt styleA styleB

/-- `timestamp_pattern.match(s)` viewed as a Boolean. -/
def tsMatch (s : List Char) : Bool := !(RE.run tsRegex s).isEmpty

/-- First alternative of the non-capturing prefix of `_extract_info`:
`\d{2}/\d{2}/\d{4},?\s+\d{1,2}:\d{2}(?:\s?[apAP][mM])?\s*-\s*`. -/
def exV1 : RE := reSeq
  [.rep isDigitRe 2 2, chr '/', .rep isDigitRe 2 2, chr '/', .rep isDigitRe 4 4,
   .opt (chr ','), .many1 isSpaceRe, .rep isDigitRe 1 2, chr ':', .pred isDigitRe,
   .pred isDigitRe, .opt (reSeq [.opt (.pred isSpaceRe), .pred isAPapRe, .pred isMmRe]),
   .many isSpaceRe, chr '-', .many isSpaceRe]

/-- Second alternative of the prefix of `_extract_info`:
`\[\d{4}/\d{1,2}/\d{1,2},?\s+\d{1,2}:\d{2}:\d{2}\s+[APM]{2}\]\s*`. -/
def exV2 : RE := reSeq
  [chr '[', .rep isDigitRe 4 4, chr '/', .rep isDigitRe 1 2, chr '/', .rep isDigitRe 1 2,
   .opt (chr ','), .many1 isSpaceRe, .rep isDigitRe 1 2, chr ':', .pred isDigitRe,
   .pred isDigitRe, chr ':', .pred isDigitRe, .pred isDigitRe, .many1 isSpaceRe,
   .rep isAPMRe 2 2, chr ']', .many isSpaceRe]

/-- Third alternative of the prefix of `_extract_info`:
`\[\d{2}/\d{2}/\d{4},?\s+\d{1,2}:\d{2}:\d{2}\s+[APM]{2}\]\s*`. -/
def exV3 : RE := reSeq
  [chr '[', .rep isDigitRe 2 2, chr '/', .rep isDigitRe 2 2, chr '/', .rep isDigitRe 4 4,
   .opt (chr ','), .many1 isSpaceRe, .rep isDigitRe 1 2, chr ':', .pred isDigitRe,
   .pred isDigitRe, chr ':', .pred isDigitRe, .pred isDigitRe, .many1 isSpaceRe,
   .rep isAPMRe 2 2, chr ']', .many isSpaceRe]

/-- The non-capturing timestamp prefix of `_extract_info` (`(?:V1|V2|V3)`). -/
def exPre : RE := .alt exV1 (.alt exV2 exV3)

/-- The tail `([^:]+):\s*(.*)` of `_extract_info`, applied to what remains
after the timestamp prefix.  `[^:]+` is greedy over non-colon characters
and no shorter choice can ever satisfy the following literal `:`, so its
parse is unique: the maximal colon-free run, which must be non-empty and
be followed by `:`.  `\s*` then greedily eats whitespace and `(.*)`
captures the rest of the line (messages contain no newline). -/
def extractTail (rem : List Char) : Option (List Char × List Char) :=
  match rem.takeWhile (fun c => c != ':'), rem.drop (rem.takeWhile (fun c => c != ':')).length with
  | s :: ss, ':' :: b => some (s :: ss, b.dropWhile isSpaceRe)
  | _, _ => none

/-- `re.match(_extract_info, s)` returning `(sender, body)` from groups 1
and 2: the backtracking engine tries the prefix possibilities in
preference order and commits to the first one after which the tail
succeeds. -/
def extractInfo (s : List Char) : Option (List Char × List Char) :=
  (RE.run exPre s).findSome? extractTail

/-- The loop of `_extract`: messages whose extraction fails are silently
dropped; matching ones contribute `(sender, body)` in order. -/
def extractPairs (msgs : List (List Char)) : List (List Char × List Char) :=
  msgs.filterMap extractInfo

/-- The line loop of `_parse`: `current` is the accumulator
(`current_message`); a line whose stripped form matches the timestamp
pattern flushes a non-empty accumulator and restarts it, any other line is
appended to the accumulator after a single space; the final accumulator is
flushed if non-empty. -/
def parseGo (current : List Char) : List (List Char) → List (List Char)
  | [] => if current = [] then [] else [current]
  | line :: rest =>
      if tsMatch (pyStrip (cleanLine line)) then
        if current = [] then parseGo (pyStrip (cleanLine line)) rest
        else current :: parseGo (pyStrip (cleanLine line)) rest
      else parseGo (current ++ ' ' :: pyStrip (cleanLine line)) rest

/-- `_parse`, taking the file content as its list of physical lines. -/
def parse (lines : List (List Char)) : List (List Char) :=
  parseGo [] lines

/-- The loop of `_format_turns` over `zip(subject_list[1:], message_list[1:])`.
The Python code extends `messages[-1]` in place when the sender repeats;
here the trailing entry is kept as the accumulator `(current, curMsg)` and
emitted when the sender changes or the input ends. -/
def formatTurnsGo (current curMsg : List Char) :
    List (List Char × List Char) → List (List Char × List Char)
  | [] => [(current, curMsg)]
  | (s, m) :: rest =>
      if s ≠ current then (current, curMsg) :: formatTurnsGo s m rest
      else formatTurnsGo current (curMsg ++ ' ' :: m) rest

/-- `_format_turns`.  Python starts from `subject_list[0]` and
`message_list[0]`, which raises `IndexError` when either list is empty:
that case is `none`. -/
def format_turns (subs msgs : List (List Char)) :
    Option (List (List Char) × List (List Char)) :=
  match subs, msgs with
  | s0 :: sr, m0 :: mr =>
      some ((formatTurnsGo s0 m0 (sr.zip mr)).map Prod.fst,
            (formatTurnsGo s0 m0 (sr.zip mr)).map Prod.snd)
  | _, _ => none

/-- The parser state after construction: `subject_list`, `message_list`
and the `subjects` set.  The Python `set` is modelled as a duplicate-free
list; only membership in it is ever consulted. -/
structure ChatState where
  subject_list : List (List Char)
  message_list : List (List Char)
  subjects : List (List Char)
deriving DecidableEq, Repr

/-- Error taxonomy of the spec: `unknownSender` and `invalidPath` are the
two `ValueError` sites, `emptyState` is the `IndexError` of
`subject_list[0]` / `message_list[0]` on an empty list. -/
inductive ChatError where
  | unknownSender : ChatError
  | invalidPath : ChatError
  | emptyState : ChatError
deriving DecidableEq, Repr

/-- `__init__`: `_parse`, then `_extract` (which also computes
`self.subjects = set(self.subject_list)`), then `_format_turns` when
`turns` is true.  The `IndexError` `_format_turns` raises on an empty
entry list makes construction fail: that case is `none`. -/
def buildChat (lines : List (List Char)) (turns : Bool) : Option ChatState :=
  match turns, format_turns ((extractPairs (parse lines)).map Prod.fst)
      ((extractPairs (parse lines)).map Prod.snd) with
  | true, some (s, m) =>
      some ⟨s, m, ((extractPairs (parse lines)).map Prod.fst).dedup⟩
  | true, none => none
  | false, _ =>
      some ⟨(extractPairs (parse lines)).map Prod.fst,
            (extractPairs (parse lines)).map Prod.snd,
            ((extractPairs (parse lines)).map Prod.fst).dedup⟩

/-- `set_main_subject`: membership is checked against the (possibly
stale) `subjects` snapshot; then `get_main_subject()` reads
`subject_list[0]`; equality with it is a no-op, otherwise both lists lose
their head. -/
def set_main_subject (st : ChatState) (subject : List Char) : Except ChatError ChatState :=
  if subject ∈ st.subjects then
    match st.subject_list with
    | [] => .error .emptyState
    | s0 :: _ =>
        if subject = s0 then .ok st
        else .ok { st with message_list := st.message_list.tail,
                           subject_list := st.subject_list.tail }
  else .error .unknownSender

/-- `replace_subject`: membership of `old_subject` is checked against the
`subjects` snapshot; `subject_list` is rebuilt by the comprehension
`[new if s == old else s for s in subject_list]`; `subjects` itself is
not updated. -/
def replace_subject (st : ChatState) (old_subject new_subject : List Char) :
    Except ChatError ChatState :=
  if old_subject ∈ st.subjects then
    .ok { st with subject_list :=
            st.subject_list.map (fun s => if s = old_subject then new_subject else s) }
  else .error .unknownSender

/-- The literal `'.jsonl'` checked by `path.endswith`. -/
def jsonlExt : List Char := ['.', 'j', 's', 'o', 'n', 'l']

/-- One step of the `enumerate(message_list)` loop of
`export_prompt_completion`: even index appends to `prompt`, odd index to
`completion`. -/
def pcStep (pc : List (List Char) × List (List Char)) (im : Nat × List Char) :
    List (List Char) × List (List Char) :=
  if im.1 % 2 = 0 then (pc.1 ++ [im.2], pc.2) else (pc.1, pc.2 ++ [im.2])

/-- `export_prompt_completion`, modelled up to the rows it would write:
the path must end in `.jsonl`, then `zip(prompt, completion)` (which
truncates to the shorter list) gives the exported pairs. -/
def export_prompt_completion (st : ChatState) (path : List Char) :
    Except ChatError (List (List Char × List Char)) :=
  if jsonlExt.isSuffixOf path then
    .ok ((st.message_list.enum.foldl pcStep ([], [])).1.zip
         (st.message_list.enum.foldl pcStep ([], [])).2)
  else .error .invalidPath

/-- Specification-side definition, following the spec's words "split the
message list by parity of index": the even-indexed and the odd-indexed
elements of a list.  `export_prompt_completion` is checked against it. -/
def paritySplit : List (List Char) → List (List Char) × List (List Char)
  | [] => ([], [])
  | a :: r => ((a :: (paritySplit r).2), (paritySplit r).1)


/-! ### Properties of `_format_turns` -/

/-- The first entry emitted by the `_format_turns` loop carries the
sender it started from. -/
theorem formatTurnsGo_shape (l : List (List Char × List Char)) (c m : List Char) :
    ∃ cm t, formatTurnsGo c m l = (c, cm) :: t := by
  induction l generalizing m with
  | nil => exact ⟨m, [], rfl⟩
  | cons p rest ih =>
    obtain ⟨s, b⟩ := p
    by_cases h : s = c
    · rw [show ((s, b) : List Char × List Char) = (c, b) by rw [h]]
      simpa only [formatTurnsGo, ne_eq, not_true_eq_false, if_false] using ih _
    · exact ⟨m, formatTurnsGo s b rest,
        by simp only [formatTurnsGo, ne_eq, h, not_false_eq_true, if_true]⟩

/-- Consecutive entries emitted by the `_format_turns` loop have distinct
senders. -/
theorem formatTurnsGo_chain (l : List (List Char × List Char)) (c m : List Char) :
    List.Chain' (fun x y => x.1 ≠ y.1) (formatTurnsGo c m l) := by
  induction l generalizing c m with
  | nil => simp [formatTurnsGo]
  | cons p rest ih =>
    obtain ⟨s, b⟩ := p
    by_cases h : s = c
    · rw [show ((s, b) : List Char × List Char) = (c, b) by rw [h]]
      simpa only [formatTurnsGo, ne_eq, not_true_eq_false, if_false] using ih c _
    · simp only [formatTurnsGo, ne_eq, h, not_false_eq_true, if_true]
      obtain ⟨cm, t, hst⟩ := formatTurnsGo_shape rest s b
      rw [hst]
      exact List.Chain'.cons (by simpa using Ne.symm h) (hst ▸ ih s b)

/-- On a list whose consecutive senders already differ (also from the
starting accumulator), the `_format_turns` loop is the identity. -/
theorem formatTurnsGo_of_chain (l : List (List Char × List Char)) (c m : List Char)
    (h : List.Chain' (fun x y => x.1 ≠ y.1) ((c, m) :: l)) :
    formatTurnsGo c m l = (c, m) :: l := by
  induction l generalizing c m with
  | nil => rfl
  | cons p rest ih =>
    obtain ⟨s, b⟩ := p
    rw [List.chain'_cons] at h
    have hs : s ≠ c := Ne.symm h.1
    simp only [formatTurnsGo, ne_eq, hs, not_false_eq_true, if_true]
    rw [ih s b h.2]

/-- Zipping the two projections of a list of pairs restores the list. -/
theorem zip_fst_snd (l : List (List Char × List Char)) :
    (l.map Prod.fst).zip (l.map Prod.snd) = l := by
  induction l with
  | nil => rfl
  | cons p rest ih => simp [List.zip_cons_cons, ih]

/-- C5: turn-collapsing is idempotent: whenever `_format_turns` succeeds,
running it again on its own output returns that output unchanged. -/
theorem C5_format_turns_idempotent (s m s' m' : List (List Char))
    (h : format_turns s m = some (s', m')) :
    format_turns s' m' = some (s', m') := by
  match s, m with
  | [], m => simp [format_turns] at h
  | s0 :: sr, [] => simp [format_turns] at h
  | s0 :: sr, m0 :: mr =>
    simp only [format_turns, Option.some.injEq, Prod.mk.injEq] at h
    obtain ⟨cm, t, hst⟩ := formatTurnsGo_shape (sr.zip mr) s0 m0
    have hchain := formatTurnsGo_chain (sr.zip mr) s0 m0
    rw [hst] at hchain
    have hs' : s' = s0 :: t.map Prod.fst := by rw [← h.1, hst]; rfl
    have hm' : m' = cm :: t.map Prod.snd := by rw [← h.2, hst]; rfl
    subst hs' hm'
    simp only [format_turns, Option.some.injEq, Prod.mk.injEq]
    rw [zip_fst_snd, formatTurnsGo_of_chain t s0 cm hchain]
    exact ⟨rfl, rfl⟩

/-- Witness for C5 at a concrete input. -/
theorem C5_format_turns_idempotent_witness :
    format_turns ["Alice".data, "Bob".data] ["hi there".data, "yo".data] =
      some (["Alice".data, "Bob".data], ["hi there".data, "yo".data]) :=
  C5_format_turns_idempotent ["Alice".data, "Alice".data, "Bob".data]
    ["hi".data, "there".data, "yo".data] _ _ rfl

/-! ### The length invariant and the main-subject / rename operations -/

/-- `len(subject_list) == len(message_list)`. -/
def lenInv (st : ChatState) : Prop :=
  st.subject_list.length = st.message_list.length

/-- Number of occurrences of a sender name in a subject list. -/
def countOcc (a : List Char) : List (List Char) → Nat
  | [] => 0
  | b :: r => (if b = a then 1 else 0) + countOcc a r

/-- Renaming `o` to `n` (with `o ≠ n`) adds exactly the old `o`-count to
the `n`-count. -/
theorem countOcc_map_rename (l : List (List Char)) (o n : List Char) (h : o ≠ n) :
    countOcc n (l.map (fun s => if s = o then n else s)) =
      countOcc n l + countOcc o l := by
  induction l with
  | nil => rfl
  | cons a r ih =>
    simp only [List.map_cons, countOcc, ih]
    by_cases ha : a = o
    · simp only [ha, eq_self_iff_true, if_true, h, if_false]
      omega
    · simp only [if_neg ha]
      omega

/-- C3: the subject and message lists have equal length after
construction (with or without turn-collapsing), after extraction, after
`_format_turns`, and the invariant is preserved by `set_main_subject` and
`replace_subject`. -/
theorem C3_length_invariant :
    (∀ lines turns st, buildChat lines turns = some st → lenInv st) ∧
    (∀ msgs, ((extractPairs msgs).map Prod.fst).length =
      ((extractPairs msgs).map Prod.snd).length) ∧
    (∀ s m s' m', format_turns s m = some (s', m') → s'.length = m'.length) ∧
    (∀ st name st', lenInv st → set_main_subject st name = .ok st' → lenInv st') ∧
    (∀ st o n st', lenInv st → replace_subject st o n = .ok st' → lenInv st') := by
  have hft : ∀ s m s' m', format_turns s m = some (s', m') → s'.length = m'.length := by
    intro s m s' m' h
    match s, m with
    | [], m => simp [format_turns] at h
    | s0 :: sr, [] => simp [format_turns] at h
    | s0 :: sr, m0 :: mr =>
      simp only [format_turns, Option.some.injEq, Prod.mk.injEq] at h
      rw [← h.1, ← h.2]
      simp
  refine ⟨?_, fun msgs => by simp, hft, ?_, ?_⟩
  · intro lines turns st h
    cases turns with
    | false =>
      simp only [buildChat, Option.some.injEq] at h
      rw [← h]
      simp [lenInv]
    | true =>
      cases hb : format_turns ((extractPairs (parse lines)).map Prod.fst)
          ((extractPairs (parse lines)).map Prod.snd) with
      | none => simp only [buildChat, hb] at h; cases h
      | some sm =>
        obtain ⟨S, M⟩ := sm
        simp only [buildChat, hb, Option.some.injEq] at h
        rw [← h]
        exact hft _ _ _ _ hb
  · intro st name st' hlen h
    by_cases hmem : name ∈ st.subjects
    · cases hsl : st.subject_list with
      | nil =>
        rw [set_main_subject, if_pos hmem, hsl] at h
        cases h
      | cons s0 rest =>
        rw [set_main_subject, if_pos hmem, hsl] at h
        have h2 : (if name = s0 then Except.ok st
            else Except.ok
              { st with message_list := st.message_list.tail, subject_list := rest })
            = Except.ok st' := h
        by_cases heq : name = s0
        · rw [if_pos heq] at h2
          cases h2
          exact hlen
        · rw [if_neg heq] at h2
          cases h2
          simp only [lenInv, List.length_tail] at hlen ⊢
          rw [hsl] at hlen
          simp only [List.length_cons] at hlen
          omega
    · rw [set_main_subject, if_neg hmem] at h; cases h
  · intro st o n st' hlen h
    by_cases hmem : o ∈ st.subjects
    · rw [replace_subject, if_pos hmem] at h
      cases h
      simpa [lenInv] using hlen
    · rw [replace_subject, if_neg hmem] at h; cases h

/-- Witness for C3 at a concrete state built by the pipeline. -/
theorem C3_length_invariant_witness :
    lenInv ⟨["Alice".data], ["Hi".data], ["Alice".data]⟩ :=
  C3_length_invariant.1 ["12/31/2023, 9:00 PM - Alice: Hi".data] false
    ⟨["Alice".data], ["Hi".data], ["Alice".data]⟩ rfl

/-- C6: `set_main_subject` errors with `unknownSender` exactly when the
name is outside the `subjects` snapshot; with the current main subject it
is a no-op; otherwise it drops exactly the head entry of both lists and
changes nothing else. -/
theorem C6_set_main_subject (st : ChatState) (name s0 : List Char)
    (hs : st.subject_list.head? = some s0) :
    (set_main_subject st name = .error .unknownSender ↔ name ∉ st.subjects) ∧
    (name ∈ st.subjects → name = s0 → set_main_subject st name = .ok st) ∧
    (name ∈ st.subjects → name ≠ s0 →
      set_main_subject st name = .ok
        { st with message_list := st.message_list.tail,
                  subject_list := st.subject_list.tail }) := by
  obtain ⟨l, hl⟩ : ∃ l, st.subject_list = s0 :: l := by
    cases hsl : st.subject_list with
    | nil => rw [hsl] at hs; cases hs
    | cons a l =>
      rw [hsl] at hs
      simp only [List.head?_cons, Option.some.injEq] at hs
      exact ⟨l, by rw [hs]⟩
  have hred : ∀ x : Except ChatError ChatState,
      (set_main_subject st name = x) =
      ((if name ∈ st.subjects then
          (if name = s0 then Except.ok st
           else Except.ok
             { st with message_list := st.message_list.tail,
                       subject_list := st.subject_list.tail })
        else Except.error ChatError.unknownSender) = x) := by
    intro x
    rw [set_main_subject]
    by_cases hmem : name ∈ st.subjects
    · rw [if_pos hmem, if_pos hmem, hl]
    · rw [if_neg hmem, if_neg hmem]
  refine ⟨?_, ?_, ?_⟩
  · rw [hred]
    by_cases hmem : name ∈ st.subjects
    · rw [if_pos hmem]
      by_cases heq : name = s0
      · rw [if_pos heq]
        simp [hmem]
      · rw [if_neg heq]
        simp [hmem]
    · rw [if_neg hmem]
      simp [hmem]
  · intro hmem heq
    rw [hred, if_pos hmem, if_pos heq]
  · intro hmem heq
    rw [hred, if_pos hmem, if_neg heq]

/-- Witness for C6: dropping the head entry at a concrete state. -/
theorem C6_set_main_subject_witness :
    set_main_subject ⟨["Alice".data, "Bob".data], ["hi".data, "yo".data],
        ["Alice".data, "Bob".data]⟩ "Bob".data =
      .ok ⟨["Bob".data], ["yo".data], ["Alice".data, "Bob".data]⟩ :=
  (C6_set_main_subject ⟨["Alice".data, "Bob".data], ["hi".data, "yo".data],
      ["Alice".data, "Bob".data]⟩ "Bob".data "Alice".data rfl).2.2
    (by decide) (by decide)

/-- C7: when `old_subject` passes the membership check, `replace_subject`
succeeds, keeps length and order, leaves `message_list` and `subjects`
unchanged, renames exactly the entries whose sender is `old_subject`, and
(for distinct names) adds the old count to the new name's count. -/
theorem C7_replace_subject (st : ChatState) (old_subject new_subject : List Char)
    (h : old_subject ∈ st.subjects) :
    ∃ st', replace_subject st old_subject new_subject = .ok st' ∧
      st'.subject_list.length = st.subject_list.length ∧
      st'.message_list = st.message_list ∧
      st'.subjects = st.subjects ∧
      st'.subject_list =
        st.subject_list.map (fun s => if s = old_subject then new_subject else s) ∧
      (old_subject ≠ new_subject →
        countOcc new_subject st'.subject_list =
          countOcc new_subject st.subject_list +
            countOcc old_subject st.subject_list) := by
  refine ⟨{ st with subject_list :=
      st.subject_list.map (fun s => if s = old_subject then new_subject else s) },
    ?_, by simp, rfl, rfl, rfl, ?_⟩
  · rw [replace_subject, if_pos h]
  · intro hne
    exact countOcc_map_rename st.subject_list old_subject new_subject hne

/-- Witness for C7 at a concrete state. -/
theorem C7_replace_subject_witness :
    ∃ st', replace_subject ⟨["Alice".data, "Bob".data, "Alice".data],
        ["a".data, "b".data, "c".data], ["Alice".data, "Bob".data]⟩
        "Alice".data "Carol".data = .ok st' ∧
      st'.subject_list.length = 3 ∧
      st'.message_list = ["a".data, "b".data, "c".data] ∧
      st'.subjects = ["Alice".data, "Bob".data] ∧
      st'.subject_list = ["Carol".data, "Bob".data, "Carol".data] ∧
      countOcc "Carol".data st'.subject_list = 2 := by
  obtain ⟨st', h1, h2, h3, h4, h5, h6⟩ :=
    C7_replace_subject ⟨["Alice".data, "Bob".data, "Alice".data],
      ["a".data, "b".data, "c".data], ["Alice".data, "Bob".data]⟩
      "Alice".data "Carol".data (by decide)
  refine ⟨st', h1, ?_, h3, h4, ?_, ?_⟩
  · rw [h2]; rfl
  · rw [h5]; decide
  · rw [h5]; decide

/-- C10: after `replace_subject old new` the membership checks still
consult the stale `subjects` snapshot: calls naming `new` raise
`unknownSender` although `new` now occurs as a sender, and calls naming
`old` pass although no entry's sender is `old` anymore. -/
theorem C10_stale_subjects (st : ChatState) (o n x : List Char)
    (h1 : o ∈ st.subjects) (h2 : n ∉ st.subjects) (h3 : o ∈ st.subject_list)
    (h4 : o ≠ n) (st' : ChatState) (h : replace_subject st o n = .ok st') :
    set_main_subject st' n = .error .unknownSender ∧
    replace_subject st' n x = .error .unknownSender ∧
    n ∈ st'.subject_list ∧
    o ∉ st'.subject_list ∧
    set_main_subject st' o ≠ .error .unknownSender ∧
    replace_subject st' o x ≠ .error .unknownSender := by
  rw [replace_subject, if_pos h1] at h
  have hst : st' =
      { st with subject_list := st.subject_list.map (fun s => if s = o then n else s) } := by
    cases h
    rfl
  subst hst
  have hn : n ∈ st.subject_list.map (fun s => if s = o then n else s) :=
    List.mem_map.mpr ⟨o, h3, by simp⟩
  refine ⟨?_, ?_, hn, ?_, ?_, ?_⟩
  · rw [set_main_subject, if_neg h2]
  · rw [replace_subject, if_neg h2]
  · intro hmem
    obtain ⟨s, hsmem, hfs⟩ := List.mem_map.mp hmem
    by_cases hso : s = o
    · rw [if_pos hso] at hfs; exact h4 hfs.symm
    · rw [if_neg hso] at hfs; exact hso hfs
  · rw [set_main_subject, if_pos h1]
    split
    · simp
    · split <;> simp
  · rw [replace_subject, if_pos h1]
    simp

/-- Witness for C10 at a concrete state. -/
theorem C10_stale_subjects_witness :
    set_main_subject ⟨["N".data], ["m".data], ["O".data]⟩ "N".data =
      .error .unknownSender ∧
    replace_subject ⟨["N".data], ["m".data], ["O".data]⟩ "N".data "X".data =
      .error .unknownSender ∧
    "N".data ∈ (["N".data] : List (List Char)) ∧
    "O".data ∉ (["N".data] : List (List Char)) ∧
    set_main_subject ⟨["N".data], ["m".data], ["O".data]⟩ "O".data ≠
      .error .unknownSender ∧
    replace_subject ⟨["N".data], ["m".data], ["O".data]⟩ "O".data "X".data ≠
      .error .unknownSender :=
  C10_stale_subjects ⟨["O".data], ["m".data], ["O".data]⟩ "O".data "N".data "X".data
    (by decide) (by decide) (by decide) (by decide)
    ⟨["N".data], ["m".data], ["O".data]⟩ rfl

/-- `spaceJoin` with a non-empty tail unfolds by one space. -/
theorem spaceJoin_cons_ne (m : List Char) (X : List (List Char)) (h : X ≠ []) :
    spaceJoin (m :: X) = m ++ ' ' :: spaceJoin X := by
  cases X with
  | nil => exact absurd rfl h
  | cons a r => rfl

/-- Merging the head into the accumulator does not change the joined text. -/
theorem spaceJoin_glue (a b : List Char) (t : List (List Char)) :
    spaceJoin ((a ++ ' ' :: b) :: t) = a ++ ' ' :: spaceJoin (b :: t) := by
  cases t with
  | nil => rfl
  | cons c r =>
    show (a ++ ' ' :: b) ++ ' ' :: spaceJoin (c :: r) =
      a ++ ' ' :: (b ++ ' ' :: spaceJoin (c :: r))
    simp [List.append_assoc]

/-- The `_format_turns` loop preserves the space-joined message text. -/
theorem formatTurnsGo_snd_join (l : List (List Char × List Char)) (c m : List Char) :
    spaceJoin ((formatTurnsGo c m l).map Prod.snd) = spaceJoin (m :: l.map Prod.snd) := by
  induction l generalizing c m with
  | nil => rfl
  | cons p rest ih =>
    obtain ⟨s, b⟩ := p
    by_cases h : s = c
    · rw [show ((s, b) : List Char × List Char) = (c, b) from by rw [h]]
      simp only [formatTurnsGo, ne_eq, not_true_eq_false, if_false]
      rw [ih c (m ++ ' ' :: b)]
      simp only [List.map_cons]
      exact spaceJoin_glue m b (rest.map Prod.snd)
    · simp only [formatTurnsGo, ne_eq, h, not_false_eq_true, if_true, List.map_cons]
      obtain ⟨cm, t, hst⟩ := formatTurnsGo_shape rest s b
      rw [spaceJoin_cons_ne m _ (by rw [hst]; simp),
          spaceJoin_cons_ne m _ (by simp), ih s b]

/-- The `_format_turns` loop preserves the set of senders. -/
theorem formatTurnsGo_fst_mem (l : List (List Char × List Char)) (c m x : List Char) :
    x ∈ (formatTurnsGo c m l).map Prod.fst ↔ x = c ∨ x ∈ l.map Prod.fst := by
  induction l generalizing c m with
  | nil => simp [formatTurnsGo]
  | cons p rest ih =>
    obtain ⟨s, b⟩ := p
    by_cases h : s = c
    · rw [show ((s, b) : List Char × List Char) = (c, b) from by rw [h]]
      simp only [formatTurnsGo, ne_eq, not_true_eq_false, if_false]
      rw [ih c _]
      simp only [List.map_cons, List.mem_cons]
      tauto
    · simp only [formatTurnsGo, ne_eq, h, not_false_eq_true, if_true,
        List.map_cons, List.mem_cons]
      rw [ih s b]

/-- C9: `_format_turns` preserves the set of distinct senders and the
space-joined concatenation of all message bodies; consequently, after
construction with `turns = true`, membership in the `subjects` snapshot
still coincides with membership in the collapsed `subject_list`. -/
theorem C9_format_turns_preserves :
    (∀ s m s' m', s.length = m.length → format_turns s m = some (s', m') →
      (∀ x, x ∈ s' ↔ x ∈ s) ∧ spaceJoin m' = spaceJoin m) ∧
    (∀ lines st, buildChat lines true = some st →
      ∀ x, x ∈ st.subjects ↔ x ∈ st.subject_list) := by
  have hmain : ∀ s m s' m', s.length = m.length → format_turns s m = some (s', m') →
      (∀ x, x ∈ s' ↔ x ∈ s) ∧ spaceJoin m' = spaceJoin m := by
    intro s m s' m' hlen h
    match s, m with
    | [], m => simp [format_turns] at h
    | s0 :: sr, [] => simp [format_turns] at h
    | s0 :: sr, m0 :: mr =>
      simp only [format_turns, Option.some.injEq, Prod.mk.injEq] at h
      simp only [List.length_cons, Nat.succ.injEq] at hlen
      constructor
      · intro x
        rw [← h.1, formatTurnsGo_fst_mem,
            List.map_fst_zip sr mr (le_of_eq hlen), List.mem_cons]
      · rw [← h.2, formatTurnsGo_snd_join,
          List.map_snd_zip sr mr (ge_of_eq hlen)]
  refine ⟨hmain, ?_⟩
  intro lines st h x
  cases hb : format_turns ((extractPairs (parse lines)).map Prod.fst)
      ((extractPairs (parse lines)).map Prod.snd) with
  | none => simp only [buildChat, hb] at h; cases h
  | some sm =>
    obtain ⟨S, M⟩ := sm
    simp only [buildChat, hb, Option.some.injEq] at h
    rw [← h]
    show x ∈ ((extractPairs (parse lines)).map Prod.fst).dedup ↔ x ∈ S
    rw [List.mem_dedup]
    exact ((hmain _ _ _ _ (by simp) hb).1 x).symm

/-- Witness for C9 at a concrete collapse. -/
theorem C9_format_turns_preserves_witness :
    ("Alice".data ∈ (["Alice".data, "Bob".data] : List (List Char)) ↔
      "Alice".data ∈ (["Alice".data, "Alice".data, "Bob".data] : List (List Char))) ∧
    spaceJoin ["hi there".data, "yo".data] =
      spaceJoin ["hi".data, "there".data, "yo".data] :=
  ⟨(C9_format_turns_preserves.1 ["Alice".data, "Alice".data, "Bob".data]
      ["hi".data, "there".data, "yo".data] ["Alice".data, "Bob".data]
      ["hi there".data, "yo".data] (by decide) rfl).1 "Alice".data,
   (C9_format_turns_preserves.1 ["Alice".data, "Alice".data, "Bob".data]
      ["hi".data, "there".data, "yo".data] ["Alice".data, "Bob".data]
      ["hi there".data, "yo".data] (by decide) rfl).2⟩

/-! ### The Segmenter loop -/

/-- Folding continuation lines onto an accumulator is space-joining. -/
theorem foldl_append_spaceJoin (xs : List (List Char)) (a : List Char) :
    xs.foldl (fun acc x => acc ++ ' ' :: x) a = spaceJoin (a :: xs) := by
  induction xs generalizing a with
  | nil => rfl
  | cons x rest ih =>
    rw [List.foldl_cons, ih (a ++ ' ' :: x), spaceJoin_glue]
    cases rest with
    | nil => rfl
    | cons y t => rfl

/-- A run of non-timestamp lines only extends the current accumulator. -/
theorem parseGo_no_ts (others : List (List Char)) (cur : List Char) (hcur : cur ≠ [])
    (h : ∀ l ∈ others, tsMatch (pyStrip (cleanLine l)) = false) :
    parseGo cur others =
      [others.foldl (fun acc l => acc ++ ' ' :: pyStrip (cleanLine l)) cur] := by
  induction others generalizing cur with
  | nil => simp [parseGo, hcur]
  | cons l rest ih =>
    have hl : tsMatch (pyStrip (cleanLine l)) = false := h l (by simp)
    simp only [parseGo, hl, Bool.false_eq_true, if_false, List.foldl_cons]
    exact ih (cur ++ ' ' :: pyStrip (cleanLine l)) (by simp)
      (fun l2 hl2 => h l2 (by simp [hl2]))

/-- C4: a line matching the timestamp pattern followed by `k` lines that
do not match it yields exactly one raw message: the trimmed timestamp
line with each trimmed continuation line appended, single-space-joined. -/
theorem C4_wrapping (tsLine : List Char) (others : List (List Char))
    (h1 : tsMatch (pyStrip (cleanLine tsLine)) = true)
    (h2 : ∀ l ∈ others, tsMatch (pyStrip (cleanLine l)) = false) :
    parse (tsLine :: others) =
      [spaceJoin (pyStrip (cleanLine tsLine) ::
        others.map (fun l => pyStrip (cleanLine l)))] := by
  have hne : pyStrip (cleanLine tsLine) ≠ [] := by
    intro hc
    rw [hc] at h1
    exact absurd h1 (by decide)
  show parseGo [] (tsLine :: others) = _
  simp only [parseGo, h1, if_true, if_pos rfl]
  rw [parseGo_no_ts others _ hne h2, ← foldl_append_spaceJoin, List.foldl_map]

/-- Witness for C4 at a concrete wrapped message. -/
theorem C4_wrapping_witness :
    parse ["1/1/23, 9:00 AM - Alice: Hello there".data, "How are you?".data] =
      [spaceJoin (pyStrip (cleanLine "1/1/23, 9:00 AM - Alice: Hello there".data) ::
        ["How are you?".data].map (fun l => pyStrip (cleanLine l)))] :=
  C4_wrapping "1/1/23, 9:00 AM - Alice: Hello there".data ["How are you?".data]
    (by decide) (by decide)

/-! ### The prompt/completion exporter -/

/-- The `enumerate` fold of `export_prompt_completion` computes the
parity split (starting from an even index it sends even offsets to
`prompt`; from an odd index the roles swap). -/
theorem foldl_pcStep_enumFrom (l : List (List Char)) (i : Nat) (p c : List (List Char)) :
    (List.enumFrom i l).foldl pcStep (p, c) =
      if i % 2 = 0 then (p ++ (paritySplit l).1, c ++ (paritySplit l).2)
      else (p ++ (paritySplit l).2, c ++ (paritySplit l).1) := by
  induction l generalizing i p c with
  | nil =>
    simp only [List.enumFrom, List.foldl_nil, paritySplit]
    split <;> simp
  | cons a r ih =>
    have he : List.enumFrom i (a :: r) = (i, a) :: List.enumFrom (i + 1) r := rfl
    rw [he, List.foldl_cons]
    by_cases hi : i % 2 = 0
    · have hpc : pcStep (p, c) (i, a) = (p ++ [a], c) := by simp [pcStep, hi]
      have hi1 : ¬(i + 1) % 2 = 0 := by omega
      rw [hpc, ih (i + 1) (p ++ [a]) c, if_neg hi1, if_pos hi]
      simp [paritySplit]
    · have hpc : pcStep (p, c) (i, a) = (p, c ++ [a]) := by simp [pcStep, hi]
      have hi1 : (i + 1) % 2 = 0 := by omega
      rw [hpc, ih (i + 1) p (c ++ [a]), if_pos hi1, if_neg hi]
      simp [paritySplit]

/-- `paritySplit` really is the split by index parity. -/
theorem paritySplit_get (l : List (List Char)) (i : Nat) :
    (paritySplit l).1.get? i = l.get? (2 * i) ∧
    (paritySplit l).2.get? i = l.get? (2 * i + 1) := by
  induction l generalizing i with
  | nil => simp [paritySplit]
  | cons a r ih =>
    constructor
    · cases i with
      | zero => rfl
      | succ j =>
        show (a :: (paritySplit r).2).get? (j + 1) = (a :: r).get? (2 * (j + 1))
        rw [List.get?_cons_succ, (ih j).2,
          show 2 * (j + 1) = (2 * j + 1) + 1 from by omega, List.get?_cons_succ]
    · show (paritySplit r).1.get? i = (a :: r).get? (2 * i + 1)
      rw [(ih i).1, List.get?_cons_succ]

/-- C8: `export_prompt_completion` fails with `invalidPath` exactly when
the path does not end in `.jsonl`; otherwise it exports the even-indexed
messages zipped against the odd-indexed messages (`zip` truncating to the
shorter parity group, so an unpaired final message is dropped). -/
theorem C8_export_prompt_completion (st : ChatState) (path : List Char) :
    (export_prompt_completion st path = .error .invalidPath ↔
      jsonlExt.isSuffixOf path = false) ∧
    (jsonlExt.isSuffixOf path = true →
      export_prompt_completion st path =
        .ok ((paritySplit st.message_list).1.zip (paritySplit st.message_list).2)) ∧
    (∀ i, (paritySplit st.message_list).1.get? i = st.message_list.get? (2 * i) ∧
      (paritySplit st.message_list).2.get? i = st.message_list.get? (2 * i + 1)) := by
  have hok : jsonlExt.isSuffixOf path = true →
      export_prompt_completion st path =
        .ok ((paritySplit st.message_list).1.zip (paritySplit st.message_list).2) := by
    intro hs
    rw [export_prompt_completion, if_pos hs]
    have hf := foldl_pcStep_enumFrom st.message_list 0 [] []
    simp only [Nat.zero_mod, eq_self_iff_true, if_true, List.nil_append] at hf
    show Except.ok (((st.message_list.enumFrom 0).foldl pcStep ([], [])).1.zip
      ((st.message_list.enumFrom 0).foldl pcStep ([], [])).2) = _
    rw [hf]
  refine ⟨⟨?_, ?_⟩, hok, fun i => paritySplit_get st.message_list i⟩
  · intro h
    by_cases hs : jsonlExt.isSuffixOf path = true
    · rw [hok hs] at h; cases h
    · exact eq_false_of_ne_true hs
  · intro h
    rw [export_prompt_completion, if_neg (by rw [h]; exact Bool.false_ne_true)]

/-- Witness for C8: odd-length list, final unpaired message dropped. -/
theorem C8_export_prompt_completion_witness :
    export_prompt_completion ⟨[], ["a".data, "b".data, "c".data], []⟩
      "out.jsonl".data = .ok [("a".data, "b".data)] := by
  rw [(C8_export_prompt_completion ⟨[], ["a".data, "b".data, "c".data], []⟩
    "out.jsonl".data).2.1 (by decide)]
  rfl

/-! ### Positive match lemmas for the regex runner -/

/-- `ε` leaves the input unchanged. -/
theorem mem_run_eps (s : List Char) : s ∈ RE.run .eps s := by
  simp [RE.run]

/-- A satisfied character class consumes one character. -/
theorem mem_run_pred (p : Char → Bool) {c : Char} (t : List Char) (h : p c = true) :
    t ∈ RE.run (.pred p) (c :: t) := by
  simp [RE.run, h]

/-- A literal character consumes itself. -/
theorem mem_run_chr (c : Char) (t : List Char) : t ∈ RE.run (chr c) (c :: t) :=
  mem_run_pred _ t (by simp [chr])

/-- Concatenation chains reachable suffixes. -/
theorem mem_run_cat {a b : RE} {s t u : List Char}
    (h1 : t ∈ RE.run a s) (h2 : u ∈ RE.run b t) : u ∈ RE.run (.cat a b) s := by
  simp only [RE.run, List.mem_flatMap]
  exact ⟨t, h1, h2⟩

/-- The left alternative suffices. -/
theorem mem_run_altL {a b : RE} {s t : List Char} (h : t ∈ RE.run a s) :
    t ∈ RE.run (.alt a b) s := by
  simp only [RE.run, List.mem_append]
  exact Or.inl h

/-- `p*` can consume nothing. -/
theorem mem_runMany_self (p : Char → Bool) (s : List Char) : s ∈ runMany p s := by
  cases s with
  | nil => simp [runMany]
  | cons c r => by_cases h : p c <;> simp [runMany, h]

/-- `p*` can consume any all-`p` prefix. -/
theorem mem_runMany (p : Char → Bool) (w t : List Char) (h : ∀ c ∈ w, p c = true) :
    t ∈ runMany p (w ++ t) := by
  induction w with
  | nil => exact mem_runMany_self p t
  | cons c w2 ih =>
    have hc : p c = true := h c (by simp)
    simp only [List.cons_append, runMany, hc, if_true, List.mem_append]
    exact Or.inl (ih (fun d hd => h d (by simp [hd])))

/-- `\s*`-style star over an all-`p` prefix. -/
theorem mem_run_many (p : Char → Bool) (w t : List Char) (h : ∀ c ∈ w, p c = true) :
    t ∈ RE.run (.many p) (w ++ t) :=
  mem_runMany p w t h

/-- `p+` over a non-empty all-`p` prefix. -/
theorem mem_run_many1 (p : Char → Bool) (c : Char) (w t : List Char)
    (hc : p c = true) (h : ∀ d ∈ w, p d = true) :
    t ∈ RE.run (.many1 p) ((c :: w) ++ t) := by
  simp only [List.cons_append, RE.run, hc, if_true]
  exact mem_runMany p w t h

/-- `p{lo,hi}` over an all-`p` prefix of admissible length. -/
theorem mem_run_rep (p : Char → Bool) (lo hi : Nat) (w t : List Char)
    (h1 : lo ≤ w.length) (h2 : w.length ≤ hi) (h : ∀ c ∈ w, p c = true) :
    t ∈ RE.run (.rep p lo hi) (w ++ t) := by
  show t ∈ runRepRange p lo hi (w ++ t)
  induction w generalizing lo hi with
  | nil =>
    have hlo : lo = 0 := Nat.le_zero.mp h1
    subst hlo
    cases hi with
    | zero => simp [runRepRange]
    | succ k =>
      cases t with
      | nil => simp [runRepRange]
      | cons c r => simp [runRepRange]
  | cons c w2 ih =>
    cases hi with
    | zero => exact absurd h2 (by simp)
    | succ k =>
      have hc : p c = true := h c (by simp)
      simp only [List.length_cons] at h1 h2
      simp only [List.cons_append, runRepRange, hc, if_true, List.mem_append]
      exact Or.inl (ih (lo - 1) k (by omega) (by omega)
        (fun d hd => h d (by simp [hd])))

/-- A reachable suffix makes `timestamp_pattern.match` succeed. -/
theorem tsMatch_of_mem {s t : List Char} (h : t ∈ RE.run tsRegex s) :
    tsMatch s = true := by
  show (!(RE.run tsRegex s).isEmpty) = true
  cases hrun : RE.run tsRegex s with
  | nil => rw [hrun] at h; cases h
  | cons x xs => rfl

/-- C2 counterexample: a trimmed line of the form `D+/D+/D+, H:MM`
followed by a hyphen but with the AM/PM marker absent is NOT accepted by
the Segmenter's pattern, and such a line is folded into the previous
message instead of starting a new one. -/
theorem C2_counterexample :
    tsMatch "1/1/23, 9:00 - Alice: Hi".data = false ∧
    parse ["1/1/23, 9:00 AM - Alice: Hi".data, "1/1/23, 9:00 - Bob: Yo".data] =
      ["1/1/23, 9:00 AM - Alice: Hi 1/1/23, 9:00 - Bob: Yo".data] :=
  ⟨rfl, rfl⟩

/-- C2 (amended): in the Style A pattern the AM/PM marker is required,
not optional: every trimmed line of the form `D+/D+/D+, H{1,2}:MM`,
optional whitespace, a case-insensitive AM/PM marker, optional
whitespace, a hyphen, optional whitespace, anything — is treated by the
Segmenter as the start of a new logical message. -/
theorem C2_styleA_with_marker
    (d1 d2 d3 hh : List Char) (m1 m2 : Char) (w1 w2 w3 rest : List Char) (a b : Char)
    (hd1 : d1 ≠ []) (hd1d : ∀ c ∈ d1, isDigitRe c = true)
    (hd2 : d2 ≠ []) (hd2d : ∀ c ∈ d2, isDigitRe c = true)
    (hd3 : d3 ≠ []) (hd3d : ∀ c ∈ d3, isDigitRe c = true)
    (hhlo : 1 ≤ hh.length) (hhhi : hh.length ≤ 2) (hhd : ∀ c ∈ hh, isDigitRe c = true)
    (hm1 : isDigitRe m1 = true) (hm2 : isDigitRe m2 = true)
    (hw1 : ∀ c ∈ w1, isSpaceRe c = true) (hw2 : ∀ c ∈ w2, isSpaceRe c = true)
    (hw3 : ∀ c ∈ w3, isSpaceRe c = true)
    (ha : isAPapRe a = true) (hb : isMmRe b = true) :
    tsMatch (d1 ++ '/' :: (d2 ++ '/' :: (d3 ++ ',' :: ' ' ::
      (hh ++ ':' :: m1 :: m2 :: (w1 ++ a :: b ::
        (w2 ++ '-' :: (w3 ++ rest))))))) = true := by
  obtain ⟨c1, t1, rfl⟩ := List.exists_cons_of_ne_nil hd1
  obtain ⟨c2, t2, rfl⟩ := List.exists_cons_of_ne_nil hd2
  obtain ⟨c3, t3, rfl⟩ := List.exists_cons_of_ne_nil hd3
  exact tsMatch_of_mem (mem_run_altL
    (mem_run_cat (mem_run_many1 isDigitRe c1 t1 _ (hd1d c1 (by simp))
        (fun d hd => hd1d d (by simp [hd])))
    (mem_run_cat (mem_run_chr '/' _)
    (mem_run_cat (mem_run_many1 isDigitRe c2 t2 _ (hd2d c2 (by simp))
        (fun d hd => hd2d d (by simp [hd])))
    (mem_run_cat (mem_run_chr '/' _)
    (mem_run_cat (mem_run_many1 isDigitRe c3 t3 _ (hd3d c3 (by simp))
        (fun d hd => hd3d d (by simp [hd])))
    (mem_run_cat (mem_run_chr ',' _)
    (mem_run_cat (mem_run_chr ' ' _)
    (mem_run_cat (mem_run_rep isDigitRe 1 2 hh _ hhlo hhhi hhd)
    (mem_run_cat (mem_run_chr ':' _)
    (mem_run_cat (mem_run_pred isDigitRe _ hm1)
    (mem_run_cat (mem_run_pred isDigitRe _ hm2)
    (mem_run_cat (mem_run_many isSpaceRe w1 _ hw1)
    (mem_run_cat (mem_run_pred isAPapRe _ ha)
    (mem_run_cat (mem_run_pred isMmRe _ hb)
    (mem_run_cat (mem_run_many isSpaceRe w2 _ hw2)
    (mem_run_cat (mem_run_chr '-' _)
    (mem_run_cat (mem_run_many isSpaceRe w3 rest hw3)
    (mem_run_eps rest)))))))))))))))))))

/-- Witness for the amended C2, at the concrete line
`1/1/23, 9:00 AM - Alice: Hello there`. -/
theorem C2_styleA_with_marker_witness :
    tsMatch (['1'] ++ '/' :: (['1'] ++ '/' :: (['2', '3'] ++ ',' :: ' ' ::
      (['9'] ++ ':' :: '0' :: '0' :: ([' '] ++ 'A' :: 'M' ::
        ([' '] ++ '-' :: ([' '] ++ "Alice: Hello there".data))))))) = true :=
  C2_styleA_with_marker ['1'] ['1'] ['2', '3'] ['9'] '0' '0' [' '] [' '] [' ']
    "Alice: Hello there".data 'A' 'M'
    (by decide) (by decide) (by decide) (by decide) (by decide) (by decide)
    (by decide) (by decide) (by decide) (by decide) (by decide)
    (by decide) (by decide) (by decide) (by decide) (by decide)

/-- C1: evaluation of the pipeline at the spec's concrete scenario.  The
Segmenter produces exactly the two raw messages the claim names, but the
extraction pattern — whose dash-convention alternative demands a 2-digit
day, 2-digit month and 4-digit year, unlike the Segmenter's more liberal
date pattern — fails on both raw messages, so the entry list is empty
instead of the claimed
`[("Alice", "Hello there How are you?"), ("Bob", "Good, thanks!")]`, and
construction with `turns = true` then fails on the empty entry list. -/
theorem C1_concrete_scenario :
    parse ["1/1/23, 9:00 AM - Alice: Hello there".data, "How are you?".data,
        "1/1/23, 9:01 AM - Bob: Good, thanks!".data] =
      ["1/1/23, 9:00 AM - Alice: Hello there How are you?".data,
       "1/1/23, 9:01 AM - Bob: Good, thanks!".data] ∧
    extractPairs ["1/1/23, 9:00 AM - Alice: Hello there How are you?".data,
      "1/1/23, 9:01 AM - Bob: Good, thanks!".data] = [] ∧
    buildChat ["1/1/23, 9:00 AM - Alice: Hello there".data, "How are you?".data,
      "1/1/23, 9:01 AM - Bob: Good, thanks!".data] true = none :=
  ⟨rfl, rfl, rfl⟩

end WChat
